import Mathlib

/-!
Shallow embedding of `blob_cache.py` (class `BlobCache`), the append-only
persistent key-value store with WAL-based crash recovery.

Modelling conventions:
* machine bytes are `Nat` (each in `[0,256)` for bytes the code writes);
  files are `List Nat` (byte sequences);
* `struct.pack`/`struct.unpack` of the little-endian formats `B`, `I`, `Q`
  are embedded explicitly; `pack` is `Option`-valued because `struct.pack`
  raises when the value does not fit the field;
* the wall clock (`time.time()`) is an explicit `Int` parameter, in whole
  seconds (the code truncates to whole seconds wherever it stores a time);
* `zlib.compress`/`zlib.decompress` and `json.dumps`/`json.loads` are
  external libraries: they appear as function parameters (`compress`,
  `decompress`, `dumps`, `loads`); the round-trip facts the store relies on
  appear as explicit hypotheses of the theorems that need them;
* fallible operations return `Option`; `none` is a raised exception.
  The partially mutated state a mid-operation exception leaves behind is
  not modelled (no claim below concerns it);
* Python `dict`s (the in-memory index) are association lists with
  insertion-order semantics: update-in-place on existing key, append on
  new key, as CPython dicts behave.
-/

/-- Python runtime values as far as `BlobCache._set_unsafe`'s `isinstance`
dispatch distinguishes them.  Only the head constructor matters for
classification; `float` therefore carries no payload, and `other`
stands for any Python object outside the listed types. -/
inductive PyValue where
  | none
  | bool (b : Bool)
  | int (n : Int)
  | float
  | str (s : String)
  | bytes (b : List Nat)
  | list (xs : List PyValue)
  | tuple (xs : List PyValue)
  | set (xs : List PyValue)
  | dict (xs : List (String × PyValue))
  | other

/-- Little-endian byte rendering of `n`, `w` bytes wide (the byte layout of
`struct.pack` with a little-endian integer format of width `w`). -/
def leBytes : Nat → Nat → List Nat
  | 0, _ => []
  | w + 1, n => (n % 256) :: leBytes w (n / 256)

/-- `struct.pack` for an unsigned little-endian integer field of width `w`
bytes: raises (`none`) when the value does not fit. -/
def packLE (w n : Nat) : Option (List Nat) :=
  if n < 256 ^ w then some (leBytes w n) else none

/-- `struct.unpack` for an unsigned little-endian integer field of width `w`
bytes: requires exactly `w` bytes. -/
def unpackLE (w : Nat) (l : List Nat) : Option Nat :=
  if l.length = w then some (l.foldr (fun b acc => b + 256 * acc) 0) else none

/-- `struct.pack('I', n)` — 4-byte little-endian unsigned. -/
def packI (n : Nat) : Option (List Nat) := packLE 4 n

/-- `struct.pack('Q', n)` — 8-byte little-endian unsigned. -/
def packQ (n : Nat) : Option (List Nat) := packLE 8 n

/-- `struct.pack('B', n)` — one unsigned byte. -/
def packB (n : Nat) : Option (List Nat) := packLE 1 n

/-- `struct.pack('I', i)` on a Python `int` that may be negative (raises on
negative values or values `≥ 2^32`). -/
def packIInt (i : Int) : Option (List Nat) :=
  if 0 ≤ i then packI i.toNat else Option.none

/-- `struct.unpack('I', l)` — exactly 4 bytes. -/
def unpackI (l : List Nat) : Option Nat := unpackLE 4 l

/-- `struct.unpack('Q', l)` — exactly 8 bytes. -/
def unpackQ (l : List Nat) : Option Nat := unpackLE 8 l

/-- `struct.unpack('B', l)` — exactly 1 byte. -/
def unpackB (l : List Nat) : Option Nat := unpackLE 1 l

/-- `struct.unpack('?', l)` — exactly 1 byte; any nonzero byte is `True`. -/
def unpackBool (l : List Nat) : Option Bool :=
  if l.length = 1 then some (decide (l.headI ≠ 0)) else Option.none

/-- UTF-8 encoding of one Unicode code point. -/
def utf8Char (c : Nat) : List Nat :=
  if c < 0x80 then [c]
  else if c < 0x800 then [0xC0 + c / 64, 0x80 + c % 64]
  else if c < 0x10000 then [0xE0 + c / 4096, 0x80 + c / 64 % 64, 0x80 + c % 64]
  else [0xF0 + c / 262144, 0x80 + c / 4096 % 64, 0x80 + c / 64 % 64, 0x80 + c % 64]

/-- UTF-8 bytes of a Python string (`str.encode('utf-8')`). -/
def strBytes (s : String) : List Nat := s.data.flatMap (fun c => utf8Char c.toNat)

/-- `f.read(n)` after `f.seek(pos)`: returns at most `n` bytes, fewer at
end of file, as Python file reads do. -/
def fileRead (file : List Nat) (pos n : Nat) : List Nat :=
  (file.drop pos).take n

/-- One in-memory index entry, the dict `{'start': …, 'length': …,
'expires': …}`.  Entries created by `_set_unsafe` additionally carry
`'is_bytes'` (unread anywhere); entries created by index/WAL load do not,
hence the `Option`. -/
structure IndexEntry where
  start : Nat
  length : Nat
  expires : Int
  isBytes : Option Nat
deriving DecidableEq

/-- Python dict lookup `d[k]` / `k in d` on an insertion-ordered
association list. -/
def idxLookup {κ : Type} [DecidableEq κ] (k : κ) :
    List (κ × IndexEntry) → Option IndexEntry
  | [] => Option.none
  | (k', e) :: t => if k' = k then some e else idxLookup k t

/-- Python dict assignment `d[k] = e`: replaces in place when the key is
present, appends otherwise (CPython insertion order). -/
def idxInsert {κ : Type} [DecidableEq κ] (k : κ) (e : IndexEntry) :
    List (κ × IndexEntry) → List (κ × IndexEntry)
  | [] => [(k, e)]
  | (k', e') :: t => if k' = k then (k, e) :: t else (k', e') :: idxInsert k e t

/-- Python `del d[k]` (first occurrence; dict keys are unique). -/
def idxErase {κ : Type} [DecidableEq κ] (k : κ) :
    List (κ × IndexEntry) → List (κ × IndexEntry)
  | [] => []
  | (k', e') :: t => if k' = k then t else (k', e') :: idxErase k t

/-- The `stats` counters of `BlobCache.__init__`. -/
structure Stats where
  hits : Nat
  sets : Nat
  deletes : Nat
  misses : Nat
  refreshes : Nat
deriving DecidableEq

/-- The magic header `b'blob.cache.data.01'` (`BlobCache.header_data_file`),
as ASCII codes. -/
def headerBytes : List Nat :=
  [98, 108, 111, 98, 46, 99, 97, 99, 104, 101, 46, 100, 97, 116, 97, 46, 48, 49]

/-- State of one open `BlobCache`.

`fdFile` is the content of the inode that both `data_file_append_fd` and
`data_file_read_fd` refer to (they are opened on the same path and stay
aliased even after `os.replace`, which only rebinds the path).  The append
descriptor is in append mode, so its `tell()` is always `fdFile.length`.
`wal` is the byte content of the on-disk WAL since the last index
snapshot. -/
structure CacheState where
  fdFile : List Nat
  index : List (String × IndexEntry)
  wal : List Nat
  stats : Stats
deriving DecidableEq

/-- A freshly created cache over empty files: `__init__` finds `tell() == 0`
and writes the magic header; the index and WAL are empty. -/
def initState : CacheState :=
  { fdFile := headerBytes, index := [], wal := [], stats := ⟨0, 0, 0, 0, 0⟩ }

/-- The `isinstance(value, (bool, tuple, str, set, dict, list, int, float,
bool))` test of `_set_unsafe` (note: `NoneType` is not in the tuple). -/
def isJsonType : PyValue → Bool
  | .bool _ => true
  | .tuple _ => true
  | .str _ => true
  | .set _ => true
  | .dict _ => true
  | .list _ => true
  | .int _ => true
  | .float => true
  | _ => false

/-- The classification step of `_set_unsafe` (lines 348–355): raw bytes get
discriminator 1; values in the `isinstance` tuple are serialized by
`json.dumps(value).encode()` (the `dumps` parameter yields those UTF-8
bytes, `none` when `json.dumps` raises) and get discriminator 0; anything
else raises `ValueError('Value must be bytes or JSON-serializable, …')`. -/
def classifyForSet (dumps : PyValue → Option (List Nat)) (v : PyValue) :
    Option (List Nat × Nat) :=
  match v with
  | .bytes b => some (b, 1)
  | v => if isJsonType v then (dumps v).map (fun d => (d, 0)) else Option.none

/-- `expires = int(time.time() + ttl) if ttl else 0` — Python truthiness:
`ttl = None` and `ttl = 0` both yield 0 ("never expires"). -/
def ttlExpires (ttl : Option Int) (now : Int) : Int :=
  match ttl with
  | Option.none => 0
  | some t => if t = 0 then 0 else now + t

/-- `_append_frame_to_data_file_unsafe`: appends
`pack('B', is_bytes) ++ pack('I', len(compressed)) ++ compressed` to the
data file (the inode the append fd points at), returning the new file
content, `start` (the `tell()` before the write, i.e. the offset of the
discriminator byte) and `end - start`. -/
def appendFrame (compress : List Nat → List Nat) (file : List Nat)
    (isBytes : Nat) (data : List Nat) : Option (List Nat × Nat × Nat) :=
  match packB isBytes with
  | Option.none => Option.none
  | some db =>
    let start := file.length
    let compressed := compress data
    match packI compressed.length with
    | Option.none => Option.none
    | some lb =>
      let file2 := file ++ (db ++ lb ++ compressed)
      some (file2, start, file2.length - start)

/-- `_read_frame_from_data_file_unsafe`: seek to `start`, unpack one byte
`is_bytes`, unpack a 4-byte length, read that many bytes (short reads at
EOF are silent, as in Python), decompress, and `json.loads` when
`is_bytes == 0`.  `none` is a raised unpack/zlib/json error. -/
def readFrame (loads : List Nat → Option PyValue)
    (decompress : List Nat → Option (List Nat))
    (file : List Nat) (start : Nat) : Option PyValue :=
  match unpackB (fileRead file start 1) with
  | Option.none => Option.none
  | some isBytes =>
    match unpackI (fileRead file (start + 1) 4) with
    | Option.none => Option.none
    | some dataLength =>
      let compressed := fileRead file (start + 5) dataLength
      match decompress compressed with
      | Option.none => Option.none
      | some data =>
        if isBytes = 0 then loads data else some (.bytes data)

/-- One record of `_append_to_wal_file_unsafe`, at byte level:
`pack('I', len(key)) ++ key ++ pack('?', False)` for a delete, or
`… ++ pack('?', True) ++ pack('QII', start, length, expires)` for a put. -/
def walRecBytes (key : List Nat) (entry : Option IndexEntry) :
    Option (List Nat) :=
  match packI key.length with
  | Option.none => Option.none
  | some klb =>
    match entry with
    | Option.none => some (klb ++ key ++ [0])
    | some e =>
      match packQ e.start, packI e.length, packIInt e.expires with
      | some sb, some lb, some eb => some (klb ++ key ++ [1] ++ sb ++ lb ++ eb)
      | _, _, _ => Option.none

/-- `_append_to_wal_file_unsafe` with a `str` key (`key.encode('utf-8')`). -/
def walRecordBytes (key : String) (entry : Option IndexEntry) :
    Option (List Nat) :=
  walRecBytes (strBytes key) entry

/-- `_set_unsafe`: classify the value, compute `expires`, append the frame
to the data file, store `{'start','length','expires','is_bytes'}` in the
index, append a put record to the WAL, and increment `sets`.  (The stats
update is last in the source; the returned state is the post-call state.) -/
def setValue (dumps : PyValue → Option (List Nat))
    (compress : List Nat → List Nat) (st : CacheState) (k : String)
    (v : PyValue) (ttl : Option Int) (now : Int) : Option CacheState :=
  match classifyForSet dumps v with
  | Option.none => Option.none
  | some (data, isBytes) =>
    let expires := ttlExpires ttl now
    match appendFrame compress st.fdFile isBytes data with
    | Option.none => Option.none
    | some (fd2, start, length) =>
      let e : IndexEntry := ⟨start, length, expires, some isBytes⟩
      match walRecordBytes k (some e) with
      | Option.none => Option.none
      | some rec =>
        some { st with
          fdFile := fd2
          index := idxInsert k e st.index
          wal := st.wal ++ rec
          stats := { st.stats with sets := st.stats.sets + 1 } }

/-- `_has_unsafe`: `False` iff the key is absent or
(`expires` truthy and `time.time() > expires`). -/
def hasKey (index : List (String × IndexEntry)) (k : String) (now : Int) :
    Bool :=
  match idxLookup k index with
  | Option.none => false
  | some e => if e.expires ≠ 0 ∧ e.expires < now then false else true

/-- `_get_unsafe` with `refresh_callback = None`: when `_has_unsafe` holds,
read the frame at `index[key]['start']`; otherwise raise `KeyError`
(`none`).  The `hits`/`misses` counters do not feed back into any result
and are not modelled here. -/
def getValue (loads : List Nat → Option PyValue)
    (decompress : List Nat → Option (List Nat)) (st : CacheState)
    (k : String) (now : Int) : Option PyValue :=
  if hasKey st.index k now then
    match idxLookup k st.index with
    | some e => readFrame loads decompress st.fdFile e.start
    | Option.none => Option.none
  else Option.none

/-- `_delete_unsafe`: when the key is present, append a tombstone WAL
record, delete the key from the index and increment `deletes`; a missing
key is a silent no-op. -/
def deleteKey (st : CacheState) (k : String) : Option CacheState :=
  match idxLookup k st.index with
  | Option.none => some st
  | some _ =>
    match walRecordBytes k Option.none with
    | Option.none => Option.none
    | some rec =>
      some { st with
        index := idxErase k st.index
        wal := st.wal ++ rec
        stats := { st.stats with deletes := st.stats.deletes + 1 } }

/-- `when_expired`: `KeyError` (`none`) when the key is absent from the
index, else the stored expiration, or `expires - now` when `relative`. -/
def whenExpired (index : List (String × IndexEntry)) (k : String)
    (relative : Bool) (now : Int) : Option Int :=
  match idxLookup k index with
  | some e => some (if relative then e.expires - now else e.expires)
  | Option.none => Option.none

/-- `Σ entry['length']` over the index (`_fragmentation_ratio_unsafe`). -/
def sizeIndex (index : List (String × IndexEntry)) : Nat :=
  index.foldl (fun acc e => acc + e.2.length) 0

/-- `_fragmentation_ratio_unsafe`: `size_file = tell() - len(header)`;
0 when `size_file ≤ 0`, else `1 - size_index / size_file` (float division
modelled over ℚ). -/
def fragmentationRatio (st : CacheState) : ℚ :=
  let sizeFile : Int := (st.fdFile.length : Int) - (headerBytes.length : Int)
  if sizeFile ≤ 0 then 0
  else 1 - (sizeIndex st.index : ℚ) / (sizeFile : ℚ)

/-- `_vacuum_unsafe`.  Faithful to the source, including its slips:
`self._write_header_unsafe()` writes the magic header to
`self.data_file_append_fd` — the *old* data file's append descriptor —
and not to `new_file`; and after `os.replace` neither data descriptor is
reopened, so both still address the old inode.  The first component is
the store state (whose `fdFile` is that old inode, now with the header
appended, and whose WAL was removed by `_save_index_unsafe`); the second
component is the content of the file now sitting at the data path (the
renamed temporary). -/
def vacuumRun (st : CacheState) : CacheState × List Nat :=
  let fd2 := st.fdFile ++ headerBytes
  let rebuilt := st.index.foldl
    (fun (acc : List Nat × List (String × IndexEntry)) ke =>
      let frame := fileRead fd2 ke.2.start ke.2.length
      (acc.1 ++ frame,
       acc.2 ++ [(ke.1, ⟨acc.1.length, frame.length, ke.2.expires, Option.none⟩)]))
    ([], [])
  ({ st with fdFile := fd2, index := rebuilt.2, wal := [] }, rebuilt.1)

/-- `struct.unpack('QII', l)`: 8-byte start, 4-byte length, 4-byte
expiration; requires exactly 16 bytes (the composition below succeeds
precisely when `l.length = 16`). -/
def unpackEntry (l : List Nat) : Option (Nat × Nat × Nat) :=
  match unpackQ (l.take 8), unpackI ((l.drop 8).take 4),
      unpackI ((l.drop 8).drop 4) with
  | some s, some ln, some e => some (s, ln, e)
  | _, _, _ => Option.none

/-- The index-file loop of `_load_index_unsafe` (lines 201–216).  Keys are
kept as their UTF-8 bytes: `bytes.decode('utf-8')` is modelled as the
identity on byte strings (a decode error and the unpack error that would
otherwise follow at the then-exhausted stream coincide on every truncated
input, and a clean writer only produces valid UTF-8).  `f.read(n)` is
`take`; `if not key_length_bytes: break` is the empty case; a 1–3 byte
read makes `struct.unpack('I', …)` raise (`none`). -/
def parseIndexRecords (now : Int) (bytes : List Nat)
    (index : List (List Nat × IndexEntry)) :
    Option (List (List Nat × IndexEntry)) :=
  if hne : bytes = [] then some index
  else
    match unpackI (bytes.take 4) with
    | Option.none => Option.none
    | some klen =>
      let key := (bytes.drop 4).take klen
      match unpackEntry ((bytes.drop (4 + klen)).take 16) with
      | Option.none => Option.none
      | some (start, length, expires) =>
        let index2 :=
          if expires = 0 ∨ (expires : Int) > now
          then idxInsert key ⟨start, length, (expires : Int), Option.none⟩ index
          else index
        parseIndexRecords now (bytes.drop (4 + klen + 16)) index2
termination_by bytes.length
decreasing_by
  have hpos : 0 < bytes.length := List.length_pos.mpr hne
  simp only [List.length_drop]
  omega

/-- The WAL loop of `_load_index_unsafe` (lines 218–241).  Only the key
length field is guarded against truncation (`if len(key_length_bytes) < 4:
break`); a missing flag byte or a short `QII` triple raises. -/
def parseWalRecords (now : Int) (bytes : List Nat)
    (index : List (List Nat × IndexEntry)) :
    Option (List (List Nat × IndexEntry)) :=
  if hshort : (bytes.take 4).length < 4 then some index
  else
    match unpackI (bytes.take 4) with
    | Option.none => Option.none
    | some klen =>
      let key := (bytes.drop 4).take klen
      match unpackBool ((bytes.drop (4 + klen)).take 1) with
      | Option.none => Option.none
      | some flag =>
        if flag then
          match unpackEntry ((bytes.drop (4 + klen + 1)).take 16) with
          | Option.none => Option.none
          | some (start, length, expires) =>
            let index2 :=
              if expires = 0 ∨ (expires : Int) > now
              then idxInsert key ⟨start, length, (expires : Int), Option.none⟩
                  index
              else index
            parseWalRecords now (bytes.drop (4 + klen + 1 + 16)) index2
        else
          let index2 :=
            if (idxLookup key index).isSome then idxErase key index else index
          parseWalRecords now (bytes.drop (4 + klen + 1)) index2
termination_by bytes.length
decreasing_by
  all_goals
    simp only [List.length_take, not_lt, le_min_iff] at hshort
    simp only [List.length_drop]
    omega

/-- `_load_index_unsafe`: start empty, read the index file if it exists,
then replay the WAL file if it exists (which is then removed).  `none`
models a raised error escaping the load. -/
def loadIndex (now : Int) (indexFile walFile : Option (List Nat)) :
    Option (List (List Nat × IndexEntry)) :=
  match (match indexFile with
         | Option.none => some []
         | some ib => parseIndexRecords now ib []) with
  | Option.none => Option.none
  | some idx =>
    match walFile with
    | Option.none => some idx
    | some wb => parseWalRecords now wb idx

/-- The effect of replaying one well-formed WAL record on the index, as the
WAL loop performs it: a put is inserted when not expired, a delete removes
the key when present. -/
def applyWalRec (now : Int) (index : List (List Nat × IndexEntry))
    (rec : List Nat × Option IndexEntry) : List (List Nat × IndexEntry) :=
  match rec.2 with
  | Option.none =>
    if (idxLookup rec.1 index).isSome then idxErase rec.1 index else index
  | some e =>
    if e.expires = 0 ∨ e.expires > now
    then idxInsert rec.1 ⟨e.start, e.length, e.expires, Option.none⟩ index
    else index

/-- Replay of a list of well-formed WAL records, in order. -/
def applyWal (now : Int) (recs : List (List Nat × Option IndexEntry))
    (index : List (List Nat × IndexEntry)) : List (List Nat × IndexEntry) :=
  recs.foldl (applyWalRec now) index

/-- Byte image of a sequence of WAL records as `_append_to_wal_file_unsafe`
writes them, one after the other. -/
def encodeWal : List (List Nat × Option IndexEntry) → Option (List Nat)
  | [] => some []
  | r :: t =>
    match walRecBytes r.1 r.2, encodeWal t with
    | some rb, some rest => some (rb ++ rest)
    | _, _ => Option.none

/-- Modelled from the spec: the accepted structured-value categories of §3 —
the scalars {null, boolean, integer, floating-point, string} and the
containers {ordered sequence, mapping from string to value} (a Python
`list` or `tuple` is an ordered sequence, a `dict` a mapping).  Used only
to compare the spec's wording against the source's `isinstance` tuple. -/
def specAcceptedStructured : PyValue → Bool
  | .none => true
  | .bool _ => true
  | .int _ => true
  | .float => true
  | .str _ => true
  | .list _ => true
  | .tuple _ => true
  | .dict _ => true
  | _ => false

/-- A two-record WAL history: a put of key `b'k'` followed by its delete. -/
def c4Recs : List (List Nat × Option IndexEntry) :=
  [([107], some ⟨18, 6, 0, Option.none⟩), ([107], Option.none)]

/-- A concrete `json.dumps` fragment for the small integers of the vacuum
scenario (`json.dumps(1) = "1"` etc., as UTF-8 bytes). -/
def dumpsDemo : PyValue → Option (List Nat)
  | .int 1 => some [49]
  | .int 2 => some [50]
  | .int 3 => some [51]
  | _ => Option.none

/-- The matching `json.loads` fragment. -/
def loadsDemo : List Nat → Option PyValue
  | [49] => some (.int 1)
  | [50] => some (.int 2)
  | [51] => some (.int 3)
  | _ => Option.none

/-- One step of the literal spec scenario `set("n",1); set("n",2);
set("n",3)` at wall-clock 100, with the identity compressor. -/
def c2Step (st : Option CacheState) (v : PyValue) : Option CacheState :=
  st.bind (fun s => setValue dumpsDemo (fun l => l) s "n" v Option.none 100)

/-- The store state the scenario reaches before `vacuum()`. -/
def c2Before : Option CacheState :=
  c2Step (c2Step (c2Step (some initState) (.int 1)) (.int 2)) (.int 3)

/-- The same state, written out: header plus three frames in the data file,
the index pointing at the third frame, three put records in the WAL. -/
def c2BeforeState : CacheState where
  fdFile := headerBytes ++ [0, 1, 0, 0, 0, 49] ++ [0, 1, 0, 0, 0, 50] ++
    [0, 1, 0, 0, 0, 51]
  index := [("n", ⟨30, 6, 0, some 0⟩)]
  wal := [1, 0, 0, 0, 110, 1, 18, 0, 0, 0, 0, 0, 0, 0, 6, 0, 0, 0, 0, 0, 0, 0] ++
    [1, 0, 0, 0, 110, 1, 24, 0, 0, 0, 0, 0, 0, 0, 6, 0, 0, 0, 0, 0, 0, 0] ++
    [1, 0, 0, 0, 110, 1, 30, 0, 0, 0, 0, 0, 0, 0, 6, 0, 0, 0, 0, 0, 0, 0]
  stats := ⟨0, 3, 0, 0, 0⟩

/-- The store state `_vacuum_unsafe` leaves in memory for the scenario: the
header got appended to the *old* data file (the inode the descriptors still
address), and the rebuilt index points at offset 0 of the renamed file. -/
def c2AfterState : CacheState where
  fdFile := c2BeforeState.fdFile ++ headerBytes
  index := [("n", ⟨0, 6, 0, Option.none⟩)]
  wal := []
  stats := ⟨0, 3, 0, 0, 0⟩

/-- A one-key store (value `b'\x07'`, never expiring): magic header followed
by a single frame, the index pointing at it. -/
def c3State : CacheState where
  fdFile := headerBytes ++ [1, 1, 0, 0, 0, 7]
  index := [("k", ⟨18, 6, 0, some 1⟩)]
  wal := []
  stats := ⟨0, 1, 0, 0, 0⟩

/-- An index holding one entry whose expiration (5) has been reached. -/
def c7Index : List (String × IndexEntry) := [("k", ⟨18, 6, 5, Option.none⟩)]

/-- A one-key store used to exercise `delete` on present and absent keys. -/
def c8State : CacheState where
  fdFile := headerBytes
  index := [("a", ⟨18, 6, 0, Option.none⟩)]
  wal := []
  stats := ⟨0, 1, 0, 0, 0⟩

/-- A one-value `json.dumps` fragment (`json.dumps(7) = "7"`). -/
def dumpsSeven : PyValue → Option (List Nat)
  | .int 7 => some [55]
  | _ => Option.none

/-- The matching one-value `json.loads` fragment. -/
def loadsSeven : List Nat → Option PyValue
  | [55] => some (.int 7)
  | _ => Option.none

-- ----------------------------------------------------------------------
-- Supporting lemmas
-- ----------------------------------------------------------------------

-- sanity checks on the codec
example : packI 1 = some [1, 0, 0, 0] := by decide
example : unpackI [1, 0, 0, 0] = some 1 := by decide
example : strBytes "k" = [107] := by decide
example : headerBytes.length = 18 := by decide

theorem leBytes_length (w n : Nat) : (leBytes w n).length = w := by
  induction w generalizing n with
  | zero => rfl
  | succ w ih => simp [leBytes, ih]

theorem leBytes_decode (w n : Nat) :
    (leBytes w n).foldr (fun b acc => b + 256 * acc) 0 = n % 256 ^ w := by
  induction w generalizing n with
  | zero => simp [leBytes, Nat.mod_one]
  | succ w ih =>
    simp only [leBytes, List.foldr_cons, ih]
    rw [pow_succ, mul_comm (256 ^ w) 256, Nat.mod_mul]

theorem unpackLE_packLE {w n : Nat} {l : List Nat} (h : packLE w n = some l) :
    unpackLE w l = some n ∧ l.length = w := by
  unfold packLE at h
  split at h
  · cases h
    refine ⟨?_, leBytes_length w n⟩
    unfold unpackLE
    rw [if_pos (leBytes_length w n), leBytes_decode]
    exact congrArg some (Nat.mod_eq_of_lt (by assumption))
  · cases h

theorem unpackI_packI {n : Nat} {l : List Nat} (h : packI n = some l) :
    unpackI l = some n ∧ l.length = 4 :=
  unpackLE_packLE h

theorem unpackQ_packQ {n : Nat} {l : List Nat} (h : packQ n = some l) :
    unpackQ l = some n ∧ l.length = 8 :=
  unpackLE_packLE h

theorem packI_isSome {n : Nat} (h : n < 2 ^ 32) : packI n = some (leBytes 4 n) := by
  unfold packI packLE
  rw [if_pos (by norm_num at h ⊢; omega)]

theorem packQ_isSome {n : Nat} (h : n < 2 ^ 64) : packQ n = some (leBytes 8 n) := by
  unfold packQ packLE
  rw [if_pos (by norm_num at h ⊢; omega)]

theorem packB_small {n : Nat} (h : n < 256) : packB n = some [n] := by
  unfold packB packLE
  rw [if_pos (by simpa using h)]
  simp [leBytes, Nat.mod_eq_of_lt h]

theorem idxLookup_insert_self {κ : Type} [DecidableEq κ] (k : κ)
    (e : IndexEntry) (l : List (κ × IndexEntry)) :
    idxLookup k (idxInsert k e l) = some e := by
  induction l with
  | nil => simp [idxInsert, idxLookup]
  | cons p t ih =>
    by_cases hp : p.1 = k
    · simp [idxInsert, idxLookup, hp]
    · simpa [idxInsert, idxLookup, hp] using ih

theorem idxLookup_eq_none {κ : Type} [DecidableEq κ] (k : κ)
    (l : List (κ × IndexEntry)) (h : k ∉ l.map Prod.fst) :
    idxLookup k l = Option.none := by
  induction l with
  | nil => rfl
  | cons p t ih =>
    simp only [List.map_cons, List.mem_cons, not_or] at h
    simp only [idxLookup]
    rw [if_neg (fun he => h.1 he.symm)]
    exact ih h.2

theorem idxLookup_erase_self {κ : Type} [DecidableEq κ] (k : κ)
    (l : List (κ × IndexEntry)) (hnd : (l.map Prod.fst).Nodup) :
    idxLookup k (idxErase k l) = Option.none := by
  induction l with
  | nil => rfl
  | cons p t ih =>
    simp only [List.map_cons, List.nodup_cons] at hnd
    by_cases hp : p.1 = k
    · subst hp
      simp only [idxErase, if_pos rfl]
      exact idxLookup_eq_none _ _ hnd.1
    · simp only [idxErase, if_neg hp, idxLookup, if_neg hp]
      exact ih hnd.2

theorem fileRead_cons_at (pre : List Nat) (x : List Nat) (n : Nat) :
    fileRead (pre ++ x) pre.length n = x.take n := by
  unfold fileRead
  rw [List.drop_left]

theorem unpackB_singleton (d : Nat) : unpackB [d] = some d := by
  unfold unpackB unpackLE
  simp

/-- Reading a frame that sits at the very end of the data file recovers its
discriminator and its compressed payload exactly. -/
theorem readFrame_at_end (loads : List Nat → Option PyValue)
    (decompress : List Nat → Option (List Nat)) (pre : List Nat) (d : Nat)
    (lb comp : List Nat) (hlb : packI comp.length = some lb) :
    readFrame loads decompress (pre ++ ([d] ++ lb ++ comp)) pre.length =
      match decompress comp with
      | some data => if d = 0 then loads data else some (.bytes data)
      | Option.none => Option.none := by
  obtain ⟨hun, hlen⟩ := unpackI_packI hlb
  have h1 : fileRead (pre ++ ([d] ++ lb ++ comp)) pre.length 1 = [d] := by
    rw [fileRead_cons_at]
    rfl
  have h2 : fileRead (pre ++ ([d] ++ lb ++ comp)) (pre.length + 1) 4 = lb := by
    unfold fileRead
    rw [show pre ++ ([d] ++ lb ++ comp) = (pre ++ [d]) ++ (lb ++ comp) by simp,
      List.drop_left' (by simp), List.take_left' hlen]
  have h3 : fileRead (pre ++ ([d] ++ lb ++ comp)) (pre.length + 5)
      comp.length = comp := by
    unfold fileRead
    rw [show pre ++ ([d] ++ lb ++ comp) = ((pre ++ [d]) ++ lb) ++ comp by simp,
      List.drop_left'
        (by simp only [List.length_append, List.length_singleton, hlen]),
      List.take_length]
  unfold readFrame
  rw [h1, unpackB_singleton]
  dsimp only
  rw [h2, hun]
  dsimp only
  rw [h3]
  cases decompress comp <;> rfl

/-- What a successful classification means: either the raw-bytes branch
(discriminator 1) or the `json.dumps` branch (discriminator 0). -/
theorem classify_cases {dumps : PyValue → Option (List Nat)} {v : PyValue}
    {data : List Nat} {isBytes : Nat}
    (hc : classifyForSet dumps v = some (data, isBytes)) :
    (v = .bytes data ∧ isBytes = 1) ∨
      (isJsonType v = true ∧ dumps v = some data ∧ isBytes = 0) := by
  rcases v with _ | b | n | _ | s | b | xs | xs | xs | xs | _
  all_goals
    simp only [classifyForSet, isJsonType, if_true, if_false,
      Option.map_eq_some', Option.some.injEq, Prod.mk.injEq,
      reduceCtorEq] at hc
  all_goals
    first
      | exact Or.inl ⟨by rw [hc.1], hc.2.symm⟩
      | (obtain ⟨a, ha, h1, h2⟩ := hc
         exact Or.inr ⟨rfl, by rw [ha, h1], h2.symm⟩)

/-- A successful classification yields discriminator 0 or 1. -/
theorem classify_isBytes {dumps : PyValue → Option (List Nat)} {v : PyValue}
    {data : List Nat} {isBytes : Nat}
    (hc : classifyForSet dumps v = some (data, isBytes)) :
    isBytes = 0 ∨ isBytes = 1 := by
  rcases classify_cases hc with h | h
  · exact Or.inr h.2
  · exact Or.inl h.2.2

/-- A raw-bytes classification comes only from a raw-bytes value. -/
theorem classify_bytes {dumps : PyValue → Option (List Nat)} {v : PyValue}
    {data : List Nat} (hc : classifyForSet dumps v = some (data, 1)) :
    v = .bytes data := by
  rcases classify_cases hc with h | h
  · exact h.1
  · exact absurd h.2.2 one_ne_zero

/-- A structured classification's payload is `json.dumps` of the value. -/
theorem classify_structured {dumps : PyValue → Option (List Nat)} {v : PyValue}
    {data : List Nat} (hc : classifyForSet dumps v = some (data, 0)) :
    dumps v = some data := by
  rcases classify_cases hc with h | h
  · exact absurd h.2 zero_ne_one
  · exact h.2.1

/-- Characterization of a successful `_set_unsafe`: the bytes appended to
the data file, the recorded index entry, the WAL put record and the stats
bump. -/
theorem setValue_spec (dumps : PyValue → Option (List Nat))
    (compress : List Nat → List Nat) (st : CacheState) (k : String)
    (v : PyValue) (ttl : Option Int) (now : Int)
    (data : List Nat) (isBytes : Nat)
    (hc : classifyForSet dumps v = some (data, isBytes))
    (hlen : (compress data).length + 5 < 2 ^ 32)
    (hkey : (strBytes k).length < 2 ^ 32)
    (hstart : st.fdFile.length < 2 ^ 64)
    (hexp : 0 ≤ ttlExpires ttl now ∧ ttlExpires ttl now < 2 ^ 32) :
    ∃ st' lb wrec,
      packI (compress data).length = some lb ∧
      walRecordBytes k
        (some ⟨st.fdFile.length, 5 + (compress data).length,
          ttlExpires ttl now, some isBytes⟩) = some wrec ∧
      setValue dumps compress st k v ttl now = some st' ∧
      st'.fdFile = st.fdFile ++ ([isBytes] ++ lb ++ compress data) ∧
      st'.index = idxInsert k
        ⟨st.fdFile.length, 5 + (compress data).length, ttlExpires ttl now,
          some isBytes⟩ st.index ∧
      st'.wal = st.wal ++ wrec ∧
      st'.stats = { st.stats with sets := st.stats.sets + 1 } := by
  have hb : isBytes < 256 := by
    rcases classify_isBytes hc with h | h <;> omega
  have hlb : packI (compress data).length =
      some (leBytes 4 (compress data).length) := packI_isSome (by omega)
  have hlblen : (leBytes 4 (compress data).length).length = 4 :=
    leBytes_length _ _
  have hflb : packI (5 + (compress data).length) =
      some (leBytes 4 (5 + (compress data).length)) := packI_isSome (by omega)
  have hklb : packI (strBytes k).length =
      some (leBytes 4 (strBytes k).length) := packI_isSome hkey
  have hsb : packQ st.fdFile.length = some (leBytes 8 st.fdFile.length) :=
    packQ_isSome hstart
  have heb : packIInt (ttlExpires ttl now) =
      some (leBytes 4 (ttlExpires ttl now).toNat) := by
    unfold packIInt
    rw [if_pos hexp.1]
    exact packI_isSome (by omega)
  have hrecb : walRecordBytes k
      (some ⟨st.fdFile.length, 5 + (compress data).length,
        ttlExpires ttl now, some isBytes⟩) =
      some (leBytes 4 (strBytes k).length ++ strBytes k ++ [1] ++
        leBytes 8 st.fdFile.length ++ leBytes 4 (5 + (compress data).length) ++
        leBytes 4 (ttlExpires ttl now).toNat) := by
    unfold walRecordBytes walRecBytes
    rw [hklb]
    simp only [hsb, hflb, heb]
  have hframe : (st.fdFile ++
      ([isBytes] ++ leBytes 4 (compress data).length ++ compress data)).length -
      st.fdFile.length = 5 + (compress data).length := by
    simp [hlblen]
    omega
  refine ⟨⟨st.fdFile ++ ([isBytes] ++ leBytes 4 (compress data).length ++
      compress data),
    idxInsert k ⟨st.fdFile.length, 5 + (compress data).length,
      ttlExpires ttl now, some isBytes⟩ st.index,
    st.wal ++ (leBytes 4 (strBytes k).length ++ strBytes k ++ [1] ++
      leBytes 8 st.fdFile.length ++ leBytes 4 (5 + (compress data).length) ++
      leBytes 4 (ttlExpires ttl now).toNat),
    { st.stats with sets := st.stats.sets + 1 }⟩,
    leBytes 4 (compress data).length, _, hlb, hrecb, ?_, rfl, rfl, rfl, rfl⟩
  unfold setValue appendFrame
  rw [hc]
  dsimp only
  rw [packB_small hb, hlb]
  dsimp only
  rw [hframe, hrecb]

-- ----------------------------------------------------------------------
-- Claim theorems
-- ----------------------------------------------------------------------

/-- C1: on an open store, `set(k, v)` followed by `get(k)` returns a value
equal to `v`: byte-for-byte for raw bytes (discriminator 1), and equal
after the canonical text encoding for structured values (discriminator 0;
`hjson` is the canonicality of the `json` codec on the encoded payload,
and `hzl` the zlib round trip).  The size bounds are the conditions under
which the `struct.pack` calls of a successful `set` cannot raise. -/
theorem c1_set_get_roundtrip (dumps : PyValue → Option (List Nat))
    (loads : List Nat → Option PyValue) (compress : List Nat → List Nat)
    (decompress : List Nat → Option (List Nat))
    (hzl : ∀ b, decompress (compress b) = some b)
    (st : CacheState) (k : String) (v : PyValue) (now nowg : Int)
    (data : List Nat) (isBytes : Nat)
    (hc : classifyForSet dumps v = some (data, isBytes))
    (hjson : ∀ w, loads data = some w → dumps w = some data)
    (hlen : (compress data).length + 5 < 2 ^ 32)
    (hkey : (strBytes k).length < 2 ^ 32)
    (hstart : st.fdFile.length < 2 ^ 64) :
    ∃ st', setValue dumps compress st k v Option.none now = some st' ∧
      (isBytes = 1 → getValue loads decompress st' k nowg = some v) ∧
      (isBytes = 0 → ∀ w, loads data = some w →
        getValue loads decompress st' k nowg = some w ∧ dumps w = dumps v) := by
  have hexp : 0 ≤ ttlExpires Option.none now ∧
      ttlExpires Option.none now < 2 ^ 32 := by
    unfold ttlExpires
    norm_num
  obtain ⟨st', lb, wrec, hlb, hwrec, hset, hfd, hidx, hwal, hstats⟩ :=
    setValue_spec dumps compress st k v Option.none now data isBytes hc hlen
      hkey hstart hexp
  have hlook : idxLookup k st'.index =
      some ⟨st.fdFile.length, 5 + (compress data).length,
        ttlExpires Option.none now, some isBytes⟩ := by
    rw [hidx]
    exact idxLookup_insert_self k _ st.index
  have hhas : hasKey st'.index k nowg = true := by
    unfold hasKey
    rw [hlook]
    simp [ttlExpires]
  have hget : getValue loads decompress st' k nowg =
      (if isBytes = 0 then loads data else some (.bytes data)) := by
    unfold getValue
    rw [hhas, if_pos rfl, hlook]
    dsimp only
    rw [hfd,
      readFrame_at_end loads decompress st.fdFile isBytes lb
        (compress data) hlb,
      hzl data]
  refine ⟨st', hset, ?_, ?_⟩
  · intro h1
    subst h1
    rw [hget, classify_bytes hc]
    rfl
  · intro h0 w hw
    subst h0
    rw [if_pos rfl] at hget
    refine ⟨by rw [hget, hw], ?_⟩
    rw [hjson w hw, classify_structured hc]

/-- C9: a successful `set` appends exactly one discriminator byte, the
32-bit little-endian length of the compressed payload, then the compressed
payload; the recorded entry's `start` is the offset of the discriminator
byte (the append position before the write) and its `length` is the whole
frame, `5 + len(compressed)` = post-write tell − start. -/
theorem c9_frame_layout (dumps : PyValue → Option (List Nat))
    (compress : List Nat → List Nat) (st : CacheState) (k : String)
    (v : PyValue) (ttl : Option Int) (now : Int)
    (data : List Nat) (isBytes : Nat)
    (hc : classifyForSet dumps v = some (data, isBytes))
    (hlen : (compress data).length + 5 < 2 ^ 32)
    (hkey : (strBytes k).length < 2 ^ 32)
    (hstart : st.fdFile.length < 2 ^ 64)
    (hexp : 0 ≤ ttlExpires ttl now ∧ ttlExpires ttl now < 2 ^ 32) :
    ∃ st' lb, packI (compress data).length = some lb ∧
      setValue dumps compress st k v ttl now = some st' ∧
      st'.fdFile = st.fdFile ++ ([isBytes] ++ lb ++ compress data) ∧
      idxLookup k st'.index =
        some ⟨st.fdFile.length, 5 + (compress data).length,
          ttlExpires ttl now, some isBytes⟩ ∧
      st'.fdFile.length = st.fdFile.length + (5 + (compress data).length) := by
  obtain ⟨st', lb, wrec, hlb, hwrec, hset, hfd, hidx, hwal, hstats⟩ :=
    setValue_spec dumps compress st k v ttl now data isBytes hc hlen hkey
      hstart hexp
  refine ⟨st', lb, hlb, hset, hfd, ?_, ?_⟩
  · rw [hidx]
    exact idxLookup_insert_self k _ st.index
  · rw [hfd]
    simp [(unpackI_packI hlb).2]
    omega

/-- C10: `set(key, value, ttl=0)` stores expiration 0 — Python's `if ttl`
is false for `ttl = 0` — which is exactly the no-`ttl` call, and the entry
never expires: `has` is true at every later wall-clock time. -/
theorem c10_ttl_zero (dumps : PyValue → Option (List Nat))
    (compress : List Nat → List Nat) (st : CacheState) (k : String)
    (v : PyValue) (now : Int) :
    setValue dumps compress st k v (some 0) now =
      setValue dumps compress st k v Option.none now ∧
    (∀ st', setValue dumps compress st k v (some 0) now = some st' →
      ∃ e, idxLookup k st'.index = some e ∧ e.expires = 0 ∧
        ∀ t : Int, hasKey st'.index k t = true) := by
  have httl : ttlExpires (some 0) now = ttlExpires Option.none now := by
    simp [ttlExpires]
  constructor
  · unfold setValue
    rw [httl]
  · intro st' h
    unfold setValue at h
    rcases hcv : classifyForSet dumps v with _ | ⟨data, isBytes⟩
    · rw [hcv] at h
      cases h
    · rw [hcv] at h
      dsimp only at h
      rcases haf : appendFrame compress st.fdFile isBytes data with _ | ⟨fd2, start, length⟩
      · rw [haf] at h
        cases h
      · rw [haf] at h
        dsimp only at h
        rcases hwr : walRecordBytes k (some ⟨start, length,
            ttlExpires (some 0) now, some isBytes⟩) with _ | rec
        · rw [hwr] at h
          cases h
        · rw [hwr] at h
          dsimp only at h
          cases h
          refine ⟨⟨start, length, ttlExpires (some 0) now, some isBytes⟩,
            idxLookup_insert_self k _ st.index, by simp [ttlExpires], ?_⟩
          intro t
          unfold hasKey
          rw [idxLookup_insert_self k _ st.index]
          simp [ttlExpires]

/-- C6: `when_expired` raises "key not found" exactly when the key is
absent from the in-memory index; for an indexed key — expired or not — it
returns the stored expiration, or expiration − now when `relative`, as a
signed integer. -/
theorem c6_when_expired (index : List (String × IndexEntry)) (k : String)
    (rel : Bool) (now : Int) :
    (whenExpired index k rel now = Option.none ↔
      idxLookup k index = Option.none) ∧
    (∀ e, idxLookup k index = some e →
      whenExpired index k rel now =
        some (if rel then e.expires - now else e.expires)) := by
  unfold whenExpired
  cases h : idxLookup k index with
  | none =>
    refine ⟨by simp, ?_⟩
    intro e he
    cases he
  | some e =>
    refine ⟨by simp, ?_⟩
    intro e' he'
    cases he'
    rfl

/-- C7 (amended): `has(key)` is true iff the key is in the in-memory index
and its expiration is 0 or at least the current time — the code tests
`time.time() > expires`, so at the instant `now == expires` the key is
still observable. -/
theorem c7_has_iff (index : List (String × IndexEntry)) (k : String)
    (now : Int) :
    hasKey index k now = true ↔
      ∃ e, idxLookup k index = some e ∧
        (e.expires = 0 ∨ now ≤ e.expires) := by
  cases h : idxLookup k index with
  | none =>
    have hk2 : hasKey index k now = false := by
      unfold hasKey
      rw [h]
    rw [hk2]
    simp only [Bool.false_eq_true, false_iff]
    rintro ⟨e', he', -⟩
    cases he'
  | some e =>
    have hk2 : hasKey index k now =
        (if e.expires ≠ 0 ∧ e.expires < now then false else true) := by
      unfold hasKey
      rw [h]
    rw [hk2]
    by_cases h2 : e.expires ≠ 0 ∧ e.expires < now
    · rw [if_pos h2]
      simp only [Bool.false_eq_true, false_iff]
      rintro ⟨e', he', hd⟩
      cases he'
      rcases hd with h3 | h3
      · exact h2.1 h3
      · exact absurd h3 (not_le.mpr h2.2)
    · rw [if_neg h2]
      refine ⟨fun _ => ⟨e, rfl, ?_⟩, fun _ => rfl⟩
      by_cases h3 : e.expires = 0
      · exact Or.inl h3
      · exact Or.inr (not_lt.mp (fun hlt => h2 ⟨h3, hlt⟩))

/-- C7 counterexample: with an entry expiring at 5, at wall-clock 5 the
code's `has` returns `True`, while the claim's predicate — expiration 0 or
strictly greater than now — is false. -/
theorem c7_counterexample :
    hasKey c7Index "k" 5 = true ∧
    ¬ (∃ e, idxLookup "k" c7Index = some e ∧
        (e.expires = 0 ∨ e.expires > 5)) := by
  refine ⟨by decide, ?_⟩
  rintro ⟨e, he, hd⟩
  rw [show idxLookup "k" c7Index = some ⟨18, 6, 5, Option.none⟩ by decide] at he
  cases he
  rcases hd with h | h <;> norm_num at h

/-- C8: `delete(key)` on an indexed key appends exactly one tombstone WAL
record (key length, key bytes, flag 0), removes the key from the index and
increments `deletes`; on an absent key it is a no-op returning the state
unchanged, raising nothing. -/
theorem c8_delete (st : CacheState) (k : String)
    (hk : (strBytes k).length < 2 ^ 32)
    (hnd : (st.index.map Prod.fst).Nodup) :
    (idxLookup k st.index = Option.none → deleteKey st k = some st) ∧
    (∀ e, idxLookup k st.index = some e →
      deleteKey st k = some { st with
        index := idxErase k st.index
        wal := st.wal ++ (leBytes 4 (strBytes k).length ++ strBytes k ++ [0])
        stats := { st.stats with deletes := st.stats.deletes + 1 } } ∧
      walRecordBytes k Option.none =
        some (leBytes 4 (strBytes k).length ++ strBytes k ++ [0]) ∧
      idxLookup k (idxErase k st.index) = Option.none) := by
  have hrec : walRecordBytes k Option.none =
      some (leBytes 4 (strBytes k).length ++ strBytes k ++ [0]) := by
    unfold walRecordBytes walRecBytes
    rw [packI_isSome hk]
  constructor
  · intro h
    unfold deleteKey
    rw [h]
  · intro e he
    unfold deleteKey
    rw [he]
    dsimp only
    rw [hrec]
    exact ⟨rfl, rfl, idxLookup_erase_self k st.index hnd⟩

/-- C5 counterexample: the null scalar is in the spec's accepted structured
categories, yet `set(k, None)` raises "unsupported value type" — `NoneType`
is not in `_set_unsafe`'s `isinstance` tuple (even under an encoder that
would happily serialize it). -/
theorem c5_counterexample :
    specAcceptedStructured PyValue.none = true ∧
    classifyForSet (fun _ => some []) PyValue.none = Option.none ∧
    setValue (fun _ => some []) (fun l => l) initState "k" PyValue.none
      Option.none 0 = Option.none :=
  ⟨rfl, rfl, rfl⟩

/-- C5 (amended): every accepted structured category *except* the null
scalar is classified to discriminator 0 (when the canonical encoder
accepts it); classification fails exactly on `None`, on objects outside
the listed types, and on values the canonical encoder itself rejects. -/
theorem c5_classification (dumps : PyValue → Option (List Nat))
    (v : PyValue) :
    (∀ d, dumps v = some d → specAcceptedStructured v = true →
      v ≠ PyValue.none → classifyForSet dumps v = some (d, 0)) ∧
    (classifyForSet dumps v = Option.none ↔
      (v = PyValue.none ∨ v = PyValue.other ∨
        (isJsonType v = true ∧ dumps v = Option.none))) := by
  constructor
  · intro d hd hacc hne
    rcases v with _ | b | n | _ | s | b | xs | xs | xs | xs | _ <;>
      simp_all [classifyForSet, isJsonType, specAcceptedStructured]
  · rcases v with _ | b | n | _ | s | b | xs | xs | xs | xs | _ <;>
      simp [classifyForSet, isJsonType, Option.map_eq_none']

/-- C3 evidence (code bug): on a one-key store, `_vacuum_unsafe` leaves the
renamed data file holding only the copied frame — its first bytes are not
the magic header — while the 18 header bytes were appended to the old
inode that `data_file_append_fd` still addresses. -/
theorem c3_vacuum_header_divergence :
    (vacuumRun c3State).2 = [1, 1, 0, 0, 0, 7] ∧
    (vacuumRun c3State).2.take 18 ≠ headerBytes ∧
    (vacuumRun c3State).1.fdFile = c3State.fdFile ++ headerBytes := by
  exact ⟨by decide, by decide, by decide⟩

/-- C2 evidence (code bug): running the spec's literal scenario
`set("n",1); set("n",2); set("n",3)` and then `vacuum()`: before the
vacuum `get("n")` is 3 and the fragmentation ratio is 2/3 (> 0, as the
claim's premise has it); after the vacuum the fragmentation ratio is 5/6,
not 0, and `get("n")` no longer returns 3 (the read descriptor still
addresses the old inode, whose offset 0 holds the magic header's bytes). -/
theorem c2_vacuum_divergence :
    c2Before = some c2BeforeState ∧
    getValue loadsDemo (fun l => some l) c2BeforeState "n" 100 =
      some (.int 3) ∧
    fragmentationRatio c2BeforeState = 2 / 3 ∧
    vacuumRun c2BeforeState = (c2AfterState, [0, 1, 0, 0, 0, 51]) ∧
    fragmentationRatio c2AfterState = 5 / 6 ∧
    getValue loadsDemo (fun l => some l) c2AfterState "n" 100 ≠
      some (.int 3) := by
  refine ⟨by decide, rfl, ?_, by decide, ?_, ?_⟩
  · have h0 : headerBytes.length = 18 := by decide
    have h1 : c2BeforeState.fdFile.length = 36 := by decide
    have h2 : sizeIndex c2BeforeState.index = 6 := by decide
    unfold fragmentationRatio
    rw [h0, h1, h2]
    norm_num
  · have h0 : headerBytes.length = 18 := by decide
    have h1 : c2AfterState.fdFile.length = 54 := by decide
    have h2 : sizeIndex c2AfterState.index = 6 := by decide
    unfold fragmentationRatio
    rw [h0, h1, h2]
    norm_num
  · intro hcontra
    have heval : getValue loadsDemo (fun l => some l) c2AfterState "n" 100 =
        some (.bytes [99, 97, 99, 104, 101, 46, 100, 97, 116, 97, 46, 48, 49,
          0, 1, 0, 0, 0, 49, 0, 1, 0, 0, 0, 50, 0, 1, 0, 0, 0, 51, 98, 108,
          111, 98, 46, 99, 97, 99, 104, 101, 46, 100, 97, 116, 97, 46, 48,
          49]) := rfl
    rw [heval] at hcontra
    simp only [Option.some.injEq, reduceCtorEq] at hcontra

theorem parseWal_stop (now : Int) (bytes : List Nat)
    (index : List (List Nat × IndexEntry)) (h : bytes.length < 4) :
    parseWalRecords now bytes index = some index := by
  rw [parseWalRecords]
  rw [dif_pos (by simp only [List.length_take]; omega)]

theorem packIInt_inv {i : Int} {eb : List Nat} (h : packIInt i = some eb) :
    0 ≤ i ∧ packI i.toNat = some eb := by
  unfold packIInt at h
  split at h
  · exact ⟨by assumption, h⟩
  · cases h

theorem walRecBytes_del_inv {key rb : List Nat}
    (h : walRecBytes key Option.none = some rb) :
    ∃ klb, packI key.length = some klb ∧ rb = klb ++ key ++ [0] := by
  unfold walRecBytes at h
  rcases hpk : packI key.length with _ | klb <;> rw [hpk] at h <;>
    dsimp only at h
  · cases h
  · exact ⟨klb, rfl, (Option.some.inj h).symm⟩

theorem walRecBytes_put_inv {key rb : List Nat} {e : IndexEntry}
    (h : walRecBytes key (some e) = some rb) :
    ∃ klb sb lb eb, packI key.length = some klb ∧ packQ e.start = some sb ∧
      packI e.length = some lb ∧ packIInt e.expires = some eb ∧
      rb = klb ++ key ++ [1] ++ sb ++ lb ++ eb := by
  unfold walRecBytes at h
  rcases hpk : packI key.length with _ | klb <;> rw [hpk] at h <;>
    dsimp only at h
  · cases h
  rcases hsb : packQ e.start with _ | sb <;>
    rcases hlb : packI e.length with _ | lb <;>
    rcases heb : packIInt e.expires with _ | eb <;>
    rw [hsb, hlb, heb] at h <;> dsimp only at h <;> cases h
  exact ⟨klb, sb, lb, eb, rfl, rfl, rfl, rfl, rfl⟩

/-- Replaying one complete delete record: the loop consumes exactly its
bytes and removes the key when present. -/
theorem parseWal_del (now : Int) (key rest : List Nat)
    (index : List (List Nat × IndexEntry)) (klb : List Nat)
    (hklb : packI key.length = some klb) :
    parseWalRecords now (klb ++ (key ++ ([0] ++ rest))) index =
      parseWalRecords now rest
        (if (idxLookup key index).isSome then idxErase key index else index)
    := by
  obtain ⟨hun, hlen⟩ := unpackI_packI hklb
  have htake : (klb ++ (key ++ ([0] ++ rest))).take 4 = klb :=
    List.take_left' hlen
  have hdrop4 : (klb ++ (key ++ ([0] ++ rest))).drop 4 = key ++ ([0] ++ rest) :=
    List.drop_left' hlen
  have hdropk : (klb ++ (key ++ ([0] ++ rest))).drop (4 + key.length) =
      [0] ++ rest := by
    rw [show klb ++ (key ++ ([0] ++ rest)) = (klb ++ key) ++ ([0] ++ rest)
      by simp]
    exact List.drop_left' (by simp only [List.length_append, hlen])
  have hdropk1 : (klb ++ (key ++ ([0] ++ rest))).drop (4 + key.length + 1) =
      rest := by
    rw [show klb ++ (key ++ ([0] ++ rest)) = ((klb ++ key) ++ [0]) ++ rest
      by simp]
    exact List.drop_left'
      (by simp only [List.length_append, List.length_singleton, hlen])
  conv_lhs => rw [parseWalRecords]
  rw [dif_neg (by rw [htake, hlen]; omega)]
  rw [htake, hun]
  dsimp only
  rw [hdrop4, List.take_left, hdropk, @List.take_left' Nat [0] rest 1 rfl,
    show unpackBool [0] = some false from by decide]
  dsimp only
  rw [hdropk1]
  simp

/-- Replaying one complete put record: the loop consumes exactly its bytes
and inserts the entry under the load-time expiry filter. -/
theorem parseWal_put (now : Int) (key rest : List Nat)
    (index : List (List Nat × IndexEntry)) (e : IndexEntry)
    (klb sb lb eb : List Nat)
    (hklb : packI key.length = some klb) (hsb : packQ e.start = some sb)
    (hlb : packI e.length = some lb) (heb : packIInt e.expires = some eb) :
    parseWalRecords now
        (klb ++ (key ++ ([1] ++ (sb ++ (lb ++ (eb ++ rest)))))) index =
      parseWalRecords now rest (applyWalRec now index (key, some e)) := by
  obtain ⟨hun, hlen⟩ := unpackI_packI hklb
  obtain ⟨hunQ, hlenQ⟩ := unpackQ_packQ hsb
  obtain ⟨hunL, hlenL⟩ := unpackI_packI hlb
  obtain ⟨hnn, hpke⟩ := packIInt_inv heb
  obtain ⟨hunE, hlenE⟩ := unpackI_packI hpke
  have htake : (klb ++ (key ++ ([1] ++ (sb ++ (lb ++ (eb ++ rest)))))).take 4 =
      klb := List.take_left' hlen
  have hdrop4 : (klb ++ (key ++ ([1] ++ (sb ++ (lb ++ (eb ++ rest)))))).drop 4 =
      key ++ ([1] ++ (sb ++ (lb ++ (eb ++ rest)))) := List.drop_left' hlen
  have hdropk : (klb ++ (key ++ ([1] ++ (sb ++ (lb ++ (eb ++
      rest)))))).drop (4 + key.length) = [1] ++ (sb ++ (lb ++ (eb ++ rest))) := by
    rw [show klb ++ (key ++ ([1] ++ (sb ++ (lb ++ (eb ++ rest))))) =
      (klb ++ key) ++ ([1] ++ (sb ++ (lb ++ (eb ++ rest)))) by simp]
    exact List.drop_left' (by simp only [List.length_append, hlen])
  have hdropk1 : (klb ++ (key ++ ([1] ++ (sb ++ (lb ++ (eb ++
      rest)))))).drop (4 + key.length + 1) = sb ++ (lb ++ (eb ++ rest)) := by
    rw [show klb ++ (key ++ ([1] ++ (sb ++ (lb ++ (eb ++ rest))))) =
      ((klb ++ key) ++ [1]) ++ (sb ++ (lb ++ (eb ++ rest))) by simp]
    exact List.drop_left'
      (by simp only [List.length_append, List.length_singleton, hlen])
  have htake16 : (sb ++ (lb ++ (eb ++ rest))).take 16 = sb ++ lb ++ eb := by
    rw [show sb ++ (lb ++ (eb ++ rest)) = (sb ++ lb ++ eb) ++ rest by simp]
    exact List.take_left'
      (by simp only [List.length_append, hlenQ, hlenL, hlenE])
  have hentry : unpackEntry (sb ++ lb ++ eb) =
      some (e.start, e.length, e.expires.toNat) := by
    unfold unpackEntry
    rw [show sb ++ lb ++ eb = sb ++ (lb ++ eb) by simp,
      List.take_left' hlenQ, List.drop_left' hlenQ,
      List.take_left' hlenL, List.drop_left' hlenL, hunQ, hunL, hunE]
  have hdropfin : (klb ++ (key ++ ([1] ++ (sb ++ (lb ++ (eb ++
      rest)))))).drop (4 + key.length + 1 + 16) = rest := by
    rw [show klb ++ (key ++ ([1] ++ (sb ++ (lb ++ (eb ++ rest))))) =
      ((((klb ++ key) ++ [1]) ++ sb) ++ lb ++ eb) ++ rest by simp]
    exact List.drop_left'
      (by simp only [List.length_append, List.length_singleton, hlen, hlenQ,
        hlenL, hlenE])
  conv_lhs => rw [parseWalRecords]
  rw [dif_neg (by rw [htake, hlen]; omega)]
  rw [htake, hun]
  dsimp only
  rw [hdrop4, List.take_left, hdropk,
    @List.take_left' Nat [1] (sb ++ (lb ++ (eb ++ rest))) 1 rfl,
    show unpackBool [1] = some true from by decide]
  dsimp only
  rw [hdropk1, htake16, hentry]
  dsimp only
  rw [hdropfin]
  have hcond : (e.expires.toNat = 0) = (e.expires = 0) := propext (by omega)
  simp [applyWalRec, Int.toNat_of_nonneg hnn, hcond]

/-- Replaying one complete WAL record of either kind. -/
theorem parseWal_cons (now : Int) (key : List Nat) (ent : Option IndexEntry)
    (rb rest : List Nat) (index : List (List Nat × IndexEntry))
    (h : walRecBytes key ent = some rb) :
    parseWalRecords now (rb ++ rest) index =
      parseWalRecords now rest (applyWalRec now index (key, ent)) := by
  cases ent with
  | none =>
    obtain ⟨klb, hklb, hrb⟩ := walRecBytes_del_inv h
    subst hrb
    rw [show (klb ++ key ++ [0]) ++ rest = klb ++ (key ++ ([0] ++ rest))
      by simp]
    rw [parseWal_del now key rest index klb hklb]
    rfl
  | some e =>
    obtain ⟨klb, sb, lb, eb, hklb, hsb, hlb, heb, hrb⟩ := walRecBytes_put_inv h
    subst hrb
    rw [show (klb ++ key ++ [1] ++ sb ++ lb ++ eb) ++ rest =
      klb ++ (key ++ ([1] ++ (sb ++ (lb ++ (eb ++ rest))))) by simp]
    exact parseWal_put now key rest index e klb sb lb eb hklb hsb hlb heb

/-- C4 counterexample: a 1-byte index-file tail (a truncated key-length
field) and a WAL whose final record is cut before its entry triple both
make `_load_index_unsafe` raise a `struct.error` — there is no `try` in it
— instead of being treated as end-of-stream. -/
theorem c4_counterexample :
    loadIndex 0 (some [1]) Option.none = Option.none ∧
    loadIndex 0 Option.none (some [0, 0, 0, 0, 1]) = Option.none := by
  constructor
  · simp [loadIndex, parseIndexRecords, unpackI, unpackLE]
  · simp [loadIndex, parseWalRecords, unpackI, unpackLE, unpackBool,
      unpackEntry, unpackQ]

/-- C4 (amended): the only truncated tail the recovery loop absorbs as
end-of-stream is a WAL tail shorter than the 4-byte key-length field; after
any sequence of complete WAL records such a tail is ignored and exactly
the complete records are applied.  (Any other truncation of a final
record — in either file — raises, as the counterexample shows.) -/
theorem c4_truncated_wal_tail (now : Int)
    (recs : List (List Nat × Option IndexEntry)) :
    ∀ bs index tail, encodeWal recs = some bs → tail.length < 4 →
      parseWalRecords now (bs ++ tail) index = some (applyWal now recs index) ∧
      parseWalRecords now bs index = some (applyWal now recs index) := by
  induction recs with
  | nil =>
    intro bs index tail he ht
    have hbs : bs = [] := (Option.some.inj he).symm
    subst hbs
    exact ⟨by simpa using parseWal_stop now tail index ht,
      by simpa using parseWal_stop now [] index (by simp)⟩
  | cons r t ih =>
    intro bs index tail he ht
    rcases hr : walRecBytes r.1 r.2 with _ | rb
    · exfalso
      unfold encodeWal at he
      rw [hr] at he
      rcases henc2 : encodeWal t with _ | rest <;> rw [henc2] at he <;>
        exact Option.noConfusion he
    rcases henc : encodeWal t with _ | rest
    · exfalso
      unfold encodeWal at he
      rw [hr, henc] at he
      exact Option.noConfusion he
    have hbs : bs = rb ++ rest := by
      unfold encodeWal at he
      rw [hr, henc] at he
      exact (Option.some.inj he).symm
    subst hbs
    constructor
    · rw [List.append_assoc, parseWal_cons now r.1 r.2 rb (rest ++ tail)
        index hr]
      exact (ih rest (applyWalRec now index (r.1, r.2)) tail henc ht).1
    · rw [parseWal_cons now r.1 r.2 rb rest index hr]
      exact (ih rest (applyWalRec now index (r.1, r.2)) tail henc ht).2

-- ----------------------------------------------------------------------
-- Witnesses
-- ----------------------------------------------------------------------

theorem c1_set_get_roundtrip_witness :
    ∃ st', setValue dumpsSeven (fun l => l) initState "k" (.int 7)
        Option.none 0 = some st' ∧
      getValue loadsSeven (fun l => some l) st' "k" 99 = some (.int 7) := by
  obtain ⟨st', hset, -, h0⟩ :=
    c1_set_get_roundtrip dumpsSeven loadsSeven (fun l => l) (fun l => some l)
      (fun b => rfl) initState "k" (.int 7) 0 99 [55] 0 rfl
      (fun w hw => by
        have hw2 : (some (PyValue.int 7) : Option PyValue) = some w := hw
        cases hw2
        rfl)
      (by decide) (by decide) (by decide)
  exact ⟨st', hset, (h0 rfl (.int 7) rfl).1⟩

theorem c9_frame_layout_witness :
    ∃ st' lb, packI ((fun (l : List Nat) => l) [55]).length = some lb ∧
      setValue dumpsSeven (fun l => l) initState "k" (.int 7) (some 10) 100 =
        some st' ∧
      st'.fdFile = initState.fdFile ++ ([0] ++ lb ++ [55]) ∧
      idxLookup "k" st'.index = some ⟨18, 6, 110, some 0⟩ := by
  obtain ⟨st', lb, hlb, hset, hfd, hidx, hlen⟩ :=
    c9_frame_layout dumpsSeven (fun l => l) initState "k" (.int 7) (some 10)
      100 [55] 0 rfl (by decide) (by decide) (by decide)
      (by norm_num [ttlExpires])
  exact ⟨st', lb, hlb, hset, hfd, hidx⟩

theorem c10_ttl_zero_witness :
    setValue (fun _ => Option.none) (fun l => l) initState "k" (.bytes [7])
        (some 0) 5 =
      setValue (fun _ => Option.none) (fun l => l) initState "k" (.bytes [7])
        Option.none 5 ∧
    ∃ e, idxLookup "k" ((setValue (fun _ => Option.none) (fun l => l) initState
        "k" (.bytes [7]) (some 0) 5).getD initState).index = some e ∧
      e.expires = 0 ∧
      hasKey ((setValue (fun _ => Option.none) (fun l => l) initState "k"
        (.bytes [7]) (some 0) 5).getD initState).index "k" 123456789 = true
    := by
  have h := c10_ttl_zero (fun _ => Option.none) (fun l => l) initState "k"
    (.bytes [7]) 5
  refine ⟨h.1, ?_⟩
  obtain ⟨e, he, hz, hall⟩ := h.2 _ rfl
  exact ⟨e, he, hz, hall 123456789⟩

theorem c6_when_expired_witness :
    whenExpired c7Index "k" true 10 = some (-5) ∧
    whenExpired c7Index "k" false 10 = some 5 ∧
    whenExpired c7Index "missing" false 10 = Option.none := by
  refine ⟨?_, ?_, ?_⟩
  · have h := (c6_when_expired c7Index "k" true 10).2 ⟨18, 6, 5, Option.none⟩
      (by decide)
    simpa using h
  · have h := (c6_when_expired c7Index "k" false 10).2 ⟨18, 6, 5, Option.none⟩
      (by decide)
    simpa using h
  · exact (c6_when_expired c7Index "missing" false 10).1.mpr (by decide)

theorem c7_has_iff_witness : hasKey c7Index "k" 3 = true := by
  exact (c7_has_iff c7Index "k" 3).mpr
    ⟨⟨18, 6, 5, Option.none⟩, by decide, by decide⟩

theorem c8_delete_witness :
    deleteKey c8State "b" = some c8State ∧
    deleteKey c8State "a" = some { c8State with
      index := []
      wal := [1, 0, 0, 0, 97, 0]
      stats := ⟨0, 1, 1, 0, 0⟩ } := by
  have ha := c8_delete c8State "a" (by decide) (by decide)
  have hb := c8_delete c8State "b" (by decide) (by decide)
  refine ⟨hb.1 (by decide), ?_⟩
  obtain ⟨hdel, -, -⟩ := ha.2 ⟨18, 6, 0, Option.none⟩ (by decide)
  rw [hdel]
  decide

theorem c5_classification_witness :
    classifyForSet dumpsSeven (.int 7) = some ([55], 0) ∧
    classifyForSet dumpsSeven PyValue.other = Option.none := by
  refine ⟨(c5_classification dumpsSeven (.int 7)).1 [55] rfl (by decide)
    (by intro hx; exact PyValue.noConfusion hx), ?_⟩
  exact (c5_classification dumpsSeven PyValue.other).2.mpr
    (Or.inr (Or.inl rfl))

theorem c4_truncated_wal_tail_witness :
    parseWalRecords 50 (((encodeWal c4Recs).getD []) ++ [7, 7]) [] =
      some (applyWal 50 c4Recs []) ∧ applyWal 50 c4Recs [] = [] := by
  refine ⟨(c4_truncated_wal_tail 50 c4Recs ((encodeWal c4Recs).getD []) []
    [7, 7] rfl (by decide)).1, by decide⟩
